import Mathlib

/-!
Verification of the fastZ impedance-tree core (`fastz/core.py`).

The Python class hierarchy (abstract `Z`, composites `SeriesZ`/`ParallelZ`,
leaves `R`/`L`/`C`) is embedded as the inductive type `Znode`.  Subscripts
may be strings or integers in Python and are only ever observed through
their string form (f-string interpolation), so they are modelled by that
string form.  Real element values are modelled by `ℝ`, complex impedances
by `ℂ`; an optional bound value is `Option ℝ`.  Python exceptions are
modelled by `Except` with structured error values carrying the data that
the corresponding exception message interpolates.  Frequency arrays are
vectorized pointwise in numpy, so evaluation is modelled at one scalar
frequency.
-/

namespace FastZ

/-- Impedance tree node: leaves `R`/`L`/`C` (class `LumpedElement` subclasses)
with optional bound value, and composites `SeriesZ`/`ParallelZ` with an
ordered children list (class `CompositeZ` subclasses). -/
inductive Znode where
  | leafR (subscript : String) (value : Option ℝ)
  | leafL (subscript : String) (value : Option ℝ)
  | leafC (subscript : String) (value : Option ℝ)
  | series (subscript : String) (children : List Znode)
  | parallel (subscript : String) (children : List Znode)

/-- The `prefix` property: reference designator fixed per concrete class
(`R.prefix`/`L.prefix`/`C.prefix` return the letter, `CompositeZ.prefix`
returns `"Z"`). -/
def prefixOf : Znode → String
  | .leafR _ _ => "R"
  | .leafL _ _ => "L"
  | .leafC _ _ => "C"
  | .series _ _ => "Z"
  | .parallel _ _ => "Z"

/-- The `subscript` property (string form). -/
def subscriptOf : Znode → String
  | .leafR s _ => s
  | .leafL s _ => s
  | .leafC s _ => s
  | .series s _ => s
  | .parallel s _ => s

/-- The `label` property: concatenation of prefix and subscript, recomputed
on demand (`Z.label`). -/
def labelOf (z : Znode) : String := prefixOf z ++ subscriptOf z

/-- The `_value` attribute of a lumped element (`LumpedElement.value`);
`none` for composites, which have no value. -/
def valueOf : Znode → Option ℝ
  | .leafR _ v => v
  | .leafL _ v => v
  | .leafC _ v => v
  | .series _ _ => none
  | .parallel _ _ => none

/-- The `_children` list of a composite; `[]` for leaves. -/
def childrenOf : Znode → List Znode
  | .leafR _ _ => []
  | .leafL _ _ => []
  | .leafC _ _ => []
  | .series _ cs => cs
  | .parallel _ cs => cs

/-- Python `type(e).__name__` for each concrete class. -/
def kindName : Znode → String
  | .leafR _ _ => "R"
  | .leafL _ _ => "L"
  | .leafC _ _ => "C"
  | .series _ _ => "SeriesZ"
  | .parallel _ _ => "ParallelZ"

/-- Whether the node is a lumped element (tree leaf). -/
def isLeaf : Znode → Bool
  | .leafR _ _ => true
  | .leafL _ _ => true
  | .leafC _ _ => true
  | .series _ _ => false
  | .parallel _ _ => false

/-- Whether the node is exactly a `SeriesZ` (Python `type(x) is SeriesZ`). -/
def isSeriesComp : Znode → Bool
  | .series _ _ => true
  | _ => false

/-- Whether the node is exactly a `ParallelZ` (Python `type(x) is ParallelZ`). -/
def isParallelComp : Znode → Bool
  | .parallel _ _ => true
  | _ => false

/-- The subscript-assignment operator `Z.__getitem__`: sets `subscript` in
place and returns the node itself; modelled purely as the updated node. -/
def setSubscript : Znode → String → Znode
  | .leafR _ v, s => .leafR s v
  | .leafL _ v, s => .leafL s v
  | .leafC _ v, s => .leafC s v
  | .series _ cs, s => .series s cs
  | .parallel _ cs, s => .parallel s cs

/-- Parameter overrides supplied to `__call__` as keyword arguments
(`**lumpedparam`): a finite map from element label to replacement value. -/
abbrev Ov := List (String × ℝ)

/-- Evaluation failure: `LumpedElement._lookup_value` raises
`ValueError(f"Value not found for element ...")` naming the element label. -/
inductive EvalErr where
  | valueNotFound (label : String)

/-- The body of `LumpedElement._lookup_value`: take the override keyed by
the element label when present, else the bound value; fail when neither
exists. -/
def lookupValue (name : String) (bound : Option ℝ) (ov : Ov) : Except EvalErr ℝ :=
  let value : Option ℝ :=
    match ov.lookup name with
    | some w => some w
    | none => bound
  match value with
  | some v => .ok v
  | none => .error (.valueNotFound name)

/-- The impedance formula each leaf class computes in `__call__` from the
resolved value `x` at frequency `f`: `R` returns the value broadcast,
`L` returns `1j*2*pi*f*x`, `C` returns `1/(1j*2*pi*f*x)`.  Zero for
composites (never used there). -/
noncomputable def leafImpedance : Znode → ℝ → ℝ → ℂ
  | .leafR _ _, _, x => (x : ℂ)
  | .leafL _ _, f, x => Complex.I * 2 * Real.pi * f * x
  | .leafC _ _, f, x => 1 / (Complex.I * 2 * Real.pi * f * x)
  | .series _ _, _, _ => 0
  | .parallel _ _, _, _ => 0

mutual

/-- The `__call__` evaluation: a leaf resolves its value through
`_lookup_value` and applies its formula; `SeriesZ.__call__` sums the
children's evaluations; `ParallelZ.__call__` inverts the sum of the
children's reciprocals.  A child's exception propagates (the generator
inside `sum` stops at the first raising child). -/
noncomputable def eval : Znode → ℝ → Ov → Except EvalErr ℂ
  | z@(.leafR _ v), f, ov =>
      match lookupValue (labelOf z) v ov with
      | .error e => .error e
      | .ok x => .ok (leafImpedance z f x)
  | z@(.leafL _ v), f, ov =>
      match lookupValue (labelOf z) v ov with
      | .error e => .error e
      | .ok x => .ok (leafImpedance z f x)
  | z@(.leafC _ v), f, ov =>
      match lookupValue (labelOf z) v ov with
      | .error e => .error e
      | .ok x => .ok (leafImpedance z f x)
  | .series _ cs, f, ov =>
      match evalChildren cs f ov with
      | .error e => .error e
      | .ok vs => .ok vs.sum
  | .parallel _ cs, f, ov =>
      match evalChildren cs f ov with
      | .error e => .error e
      | .ok vs => .ok (1 / (vs.map (fun v => 1 / v)).sum)

/-- Left-to-right evaluation of a children list, stopping at the first
failure (the semantics of `sum(z(ff, **lumpedparam) for z in children)`). -/
noncomputable def evalChildren : List Znode → ℝ → Ov → Except EvalErr (List ℂ)
  | [], _, _ => .ok []
  | c :: cs, f, ov =>
      match eval c f ov with
      | .error e => .error e
      | .ok v =>
          match evalChildren cs f ov with
          | .error e => .error e
          | .ok vs => .ok (v :: vs)

end

mutual

/-- The `subz` lookup.  `LumpedElement.subz` returns itself on a label
match and raises `KeyError` otherwise; `CompositeZ.subz` returns itself on
a label match, otherwise tries each child in stored order, catching
`KeyError` and moving on, and raises `KeyError` when every child fails.
`none` models the raised `KeyError`. -/
def subz : Znode → String → Option Znode
  | z@(.leafR _ _), lab => if lab = labelOf z then some z else none
  | z@(.leafL _ _), lab => if lab = labelOf z then some z else none
  | z@(.leafC _ _), lab => if lab = labelOf z then some z else none
  | z@(.series _ cs), lab => if lab = labelOf z then some z else subzList cs lab
  | z@(.parallel _ cs), lab => if lab = labelOf z then some z else subzList cs lab

/-- First successful `subz` among the children, in stored order. -/
def subzList : List Znode → String → Option Znode
  | [], _ => none
  | c :: cs, lab =>
      match subz c lab with
      | some r => some r
      | none => subzList cs lab

end

mutual

/-- Preorder listing of the nodes of a tree: the node itself, then the
children's preorders left to right (the traversal order of `subz`). -/
def preorder : Znode → List Znode
  | z@(.leafR _ _) => [z]
  | z@(.leafL _ _) => [z]
  | z@(.leafC _ _) => [z]
  | z@(.series _ cs) => z :: preorderList cs
  | z@(.parallel _ cs) => z :: preorderList cs

/-- Concatenated preorders of a list of trees. -/
def preorderList : List Znode → List Znode
  | [] => []
  | c :: cs => preorder c ++ preorderList cs

end

/-- `CompositeZ.merge`: extend the children with the other composite's
children when the other node is of the same concrete type, else append the
other node itself.  Defined only on composites in Python (identity on
leaves here, never used on them). -/
def merge : Znode → Znode → Znode
  | .series s cs, .series _ cs2 => .series s (cs ++ cs2)
  | .series s cs, other => .series s (cs ++ [other])
  | .parallel s cs, .parallel _ cs2 => .parallel s (cs ++ cs2)
  | .parallel s cs, other => .parallel s (cs ++ [other])
  | z, _ => z

/-- `Z.__add__`: when the left operand is exactly a `SeriesZ`, merge the
right operand into it in place and return it; otherwise construct
`SeriesZ(self, other)` with the default empty subscript. -/
def seriesCombine (a b : Znode) : Znode :=
  match a with
  | .series s cs => merge (.series s cs) b
  | _ => .series "" [a, b]

/-- `Z.__floordiv__`: when the left operand is exactly a `ParallelZ`, merge
the right operand into it in place and return it; otherwise construct
`ParallelZ(self, other)`. -/
def parallelCombine (a b : Znode) : Znode :=
  match a with
  | .parallel s cs => merge (.parallel s cs) b
  | _ => .parallel "" [a, b]

/-- The children the flattening claim predicts for a list of operands: a
same-kind composite operand contributes its children, any other operand
contributes itself. -/
def flattenOps (sameKind : Znode → Bool) (ops : List Znode) : List Znode :=
  (ops.map (fun o => if sameKind o then childrenOf o else [o])).flatten

/-- Construction failure: `CompositeZ.__init__` raises `ValueError` when
fewer than two children are supplied, reporting how many were given. -/
inductive ConstrErr where
  | tooFewChildren (given : Nat)

/-- `SeriesZ(...)` construction with its arity check. -/
def mkSeries (s : String) (children : List Znode) : Except ConstrErr Znode :=
  if children.length < 2 then .error (.tooFewChildren children.length)
  else .ok (.series s children)

/-- `ParallelZ(...)` construction with its arity check. -/
def mkParallel (s : String) (children : List Znode) : Except ConstrErr Znode :=
  if children.length < 2 then .error (.tooFewChildren children.length)
  else .ok (.parallel s children)

mutual

/-- The composite-arity invariant: every composite node in the tree has at
least two children. -/
def wellFormed : Znode → Bool
  | .leafR _ _ => true
  | .leafL _ _ => true
  | .leafC _ _ => true
  | .series _ cs => decide (2 ≤ cs.length) && wellFormedList cs
  | .parallel _ cs => decide (2 ≤ cs.length) && wellFormedList cs

/-- The composite-arity invariant for every tree in a list. -/
def wellFormedList : List Znode → Bool
  | [] => true
  | c :: cs => wellFormed c && wellFormedList cs

end

/-- Helper for `splitLabels`: walk the characters with the (reversed)
current word as accumulator, emitting a word at each whitespace run
boundary and at the end. -/
def wsSplitAux : List Char → List Char → List String
  | [], word => if word = [] then [] else [⟨word.reverse⟩]
  | c :: cs, word =>
      if c.isWhitespace then
        if word = [] then wsSplitAux cs []
        else (⟨word.reverse⟩ : String) :: wsSplitAux cs []
      else wsSplitAux cs (c :: word)

/-- Python `labels.split()`: split on whitespace runs, discarding empty
pieces (no leading/trailing empties, no empties between runs). -/
def splitLabels (s : String) : List String := wsSplitAux s.toList []

/-- Failures of `Z.breakfreq`, one constructor per raise site:
`notFound` models the `KeyError` propagated from `subz` (and a dict miss),
`expectTwo` the first `ValueError` (reporting unique-type and total
counts), `badKinds` the second `ValueError` (reporting the offending type
names), and `noneValue` the `TypeError` Python raises when arithmetic
meets a `None` element value. -/
inductive BfErr where
  | notFound (label : String)
  | expectTwo (uniqueKinds total : Nat)
  | badKinds (kinds : List String)
  | noneValue

/-- Resolution of every requested label through `subz`, left to right,
propagating the first `KeyError`
(`[self.subz(label) for label in labels.split()]`). -/
def resolveAll (z : Znode) (labs : List String) : Except BfErr (List Znode) :=
  match labs with
  | [] => .ok []
  | l :: ls =>
      match subz z l with
      | none => .error (.notFound l)
      | some n =>
          match resolveAll z ls with
          | .error e => .error e
          | .ok ns => .ok (n :: ns)

/-- `elements_dict[k].value` for the dict built by
`{type(e).__name__: e for e in elements}`: later elements overwrite
earlier ones of the same type name, a missing key is a `KeyError`, and a
`None` value poisons the arithmetic with a `TypeError`. -/
def valueByKind (elements : List Znode) (k : String) : Except BfErr ℝ :=
  match elements.reverse.find? (fun e => kindName e == k) with
  | none => .error (.notFound k)
  | some e =>
      match valueOf e with
      | none => .error .noneValue
      | some v => .ok v

/-- The body of `Z.breakfreq` after label resolution: the arity/uniqueness
check, the kind check, then the break-frequency formula selected by the
set of kind names.  The final fall-through branch is unreachable under the
guards (Python would return `None` there). -/
noncomputable def bfCore (elements : List Znode) : Except BfErr ℝ :=
  let kinds := (elements.map kindName).dedup
  if elements.length ≠ 2 ∨ kinds.length ≠ 2 then
    .error (.expectTwo kinds.length elements.length)
  else if ¬ (∀ k ∈ kinds, k = "R" ∨ k = "L" ∨ k = "C") then
    .error (.badKinds kinds)
  else if "R" ∈ kinds ∧ "C" ∈ kinds then
    match valueByKind elements "R" with
    | .error e => .error e
    | .ok rv =>
        match valueByKind elements "C" with
        | .error e => .error e
        | .ok cv => .ok (1 / 2 / Real.pi / rv / cv)
  else if "R" ∈ kinds ∧ "L" ∈ kinds then
    match valueByKind elements "R" with
    | .error e => .error e
    | .ok rv =>
        match valueByKind elements "L" with
        | .error e => .error e
        | .ok lv => .ok (rv / 2 / Real.pi / lv)
  else if "L" ∈ kinds ∧ "C" ∈ kinds then
    match valueByKind elements "L" with
    | .error e => .error e
    | .ok lv =>
        match valueByKind elements "C" with
        | .error e => .error e
        | .ok cv => .ok (1 / 2 / Real.pi / Real.sqrt (lv * cv))
  else
    .error (.badKinds kinds)

/-- `Z.breakfreq`: resolve the whitespace-separated labels through `subz`,
then validate and apply the break-frequency formula. -/
noncomputable def breakfreq (z : Znode) (labels : String) : Except BfErr ℝ :=
  match resolveAll z (splitLabels labels) with
  | .error e => .error e
  | .ok elements => bfCore elements

/-- Modelled from the spec: the break-frequency table of §4.5, read off
the two resolved elements in either order — `1/(2π·R·C)`, `R/(2π·L)`,
`1/(2π·√(L·C))` — defined only when the two nodes are leaves of distinct
kinds with bound values. -/
noncomputable def specBreakFormula : Znode → Znode → Option ℝ
  | .leafR _ (some rv), .leafC _ (some cv) => some (1 / (2 * Real.pi * rv * cv))
  | .leafC _ (some cv), .leafR _ (some rv) => some (1 / (2 * Real.pi * rv * cv))
  | .leafR _ (some rv), .leafL _ (some lv) => some (rv / (2 * Real.pi * lv))
  | .leafL _ (some lv), .leafR _ (some rv) => some (rv / (2 * Real.pi * lv))
  | .leafL _ (some lv), .leafC _ (some cv) => some (1 / (2 * Real.pi * Real.sqrt (lv * cv)))
  | .leafC _ (some cv), .leafL _ (some lv) => some (1 / (2 * Real.pi * Real.sqrt (lv * cv)))
  | _, _ => none

/-! ## Helper lemmas -/

/-- The `subz` traversal is exactly a first-match search of the preorder
node listing. -/
theorem subz_eq_find :
    ∀ (z : Znode) (lab : String),
      subz z lab = (preorder z).find? (fun n => labelOf n == lab) :=
  subz.induct
    (fun z lab => subz z lab = (preorder z).find? (fun n => labelOf n == lab))
    (fun cs lab => subzList cs lab = (preorderList cs).find? (fun n => labelOf n == lab))
    (by intro s v; simp [subz, preorder])
    (by intro s v lab h; simp [subz, preorder, h, Ne.symm h])
    (by intro s v; simp [subz, preorder])
    (by intro s v lab h; simp [subz, preorder, h, Ne.symm h])
    (by intro s v; simp [subz, preorder])
    (by intro s v lab h; simp [subz, preorder, h, Ne.symm h])
    (by intro s cs; simp [subz, preorder])
    (by intro s cs lab h ih; simp [subz, preorder, h, Ne.symm h, ih])
    (by intro s cs; simp [subz, preorder])
    (by intro s cs lab h ih; simp [subz, preorder, h, Ne.symm h, ih])
    (by intro lab; simp [subzList, preorderList])
    (by intro c cs lab r h ih; simp [subzList, preorderList, h, List.find?_append, ← ih])
    (by intro c cs lab h ih ih2; simp [subzList, preorderList, h, List.find?_append, ← ih, ih2])

/-- The invariant check distributes over list concatenation. -/
theorem wellFormedList_append (xs ys : List Znode) :
    wellFormedList (xs ++ ys) = (wellFormedList xs && wellFormedList ys) := by
  induction xs with
  | nil => simp [wellFormedList]
  | cons c cs ih => simp [wellFormedList, ih, Bool.and_assoc]

/-- A merge leaves the existing children in place, appending after them. -/
theorem merge_children_append (z o : Znode) :
    ∃ extra, childrenOf (merge z o) = childrenOf z ++ extra := by
  cases z with
  | leafR s v => exact ⟨[], by simp [merge, childrenOf]⟩
  | leafL s v => exact ⟨[], by simp [merge, childrenOf]⟩
  | leafC s v => exact ⟨[], by simp [merge, childrenOf]⟩
  | series s cs =>
      cases o with
      | series s2 cs2 => exact ⟨cs2, by simp [merge, childrenOf]⟩
      | leafR s2 v => exact ⟨[.leafR s2 v], by simp [merge, childrenOf]⟩
      | leafL s2 v => exact ⟨[.leafL s2 v], by simp [merge, childrenOf]⟩
      | leafC s2 v => exact ⟨[.leafC s2 v], by simp [merge, childrenOf]⟩
      | parallel s2 cs2 => exact ⟨[.parallel s2 cs2], by simp [merge, childrenOf]⟩
  | parallel s cs =>
      cases o with
      | parallel s2 cs2 => exact ⟨cs2, by simp [merge, childrenOf]⟩
      | leafR s2 v => exact ⟨[.leafR s2 v], by simp [merge, childrenOf]⟩
      | leafL s2 v => exact ⟨[.leafL s2 v], by simp [merge, childrenOf]⟩
      | leafC s2 v => exact ⟨[.leafC s2 v], by simp [merge, childrenOf]⟩
      | series s2 cs2 => exact ⟨[.series s2 cs2], by simp [merge, childrenOf]⟩

/-! ## Claim theorems -/

/-- C3: for every node and label, `subz` returns the first node matching
the label under the self-first, depth-first, left-to-right traversal of
the tree (the preorder listing), and returns the not-found `KeyError`
exactly when no node in the tree carries that label. -/
theorem subz_preorder_first_match (z : Znode) (lab : String) :
    subz z lab = (preorder z).find? (fun n => labelOf n == lab) ∧
    (subz z lab = none ↔ ∀ n ∈ preorder z, labelOf n ≠ lab) := by
  refine ⟨subz_eq_find z lab, ?_⟩
  rw [subz_eq_find z lab]
  simp [List.find?_eq_none]

/-- C9: subscript assignment sets the node's subscript and returns the
node with everything else unchanged (the pure rendering of the in-place
`self.subscript = subscript; return self`), and the label is recomputed on
demand as prefix concatenated with the subscript, so it immediately
reflects the new subscript. -/
theorem subscript_assignment (z : Znode) (s : String) :
    subscriptOf (setSubscript z s) = s ∧
    prefixOf (setSubscript z s) = prefixOf z ∧
    childrenOf (setSubscript z s) = childrenOf z ∧
    valueOf (setSubscript z s) = valueOf z ∧
    labelOf (setSubscript z s) = prefixOf z ++ s ∧
    labelOf z = prefixOf z ++ subscriptOf z := by
  cases z <;>
    simp [setSubscript, subscriptOf, prefixOf, childrenOf, valueOf, labelOf]

/-- C8: composite construction succeeds exactly when at least two children
are supplied, failing with the construction `ValueError` otherwise, and
`merge` only ever appends to the children list, so the at-least-two
invariant holds for every tree built from the constructors and is
preserved by `merge`. -/
theorem composite_two_children_invariant :
    (∀ s cs, (∃ w, mkSeries s cs = .ok w) ↔ 2 ≤ cs.length) ∧
    (∀ s cs, (∃ w, mkParallel s cs = .ok w) ↔ 2 ≤ cs.length) ∧
    (∀ s cs, cs.length < 2 →
      mkSeries s cs = .error (.tooFewChildren cs.length) ∧
      mkParallel s cs = .error (.tooFewChildren cs.length)) ∧
    (∀ z o, ∃ extra, childrenOf (merge z o) = childrenOf z ++ extra) ∧
    (∀ z o, wellFormed z = true → wellFormed o = true →
      wellFormed (merge z o) = true) := by
  refine ⟨?_, ?_, ?_, ?_, ?_⟩
  · intro s cs
    constructor
    · rintro ⟨w, hw⟩
      by_contra h
      simp [mkSeries, Nat.lt_of_not_le h] at hw
    · intro h
      exact ⟨.series s cs, by simp [mkSeries, Nat.not_lt.mpr h]⟩
  · intro s cs
    constructor
    · rintro ⟨w, hw⟩
      by_contra h
      simp [mkParallel, Nat.lt_of_not_le h] at hw
    · intro h
      exact ⟨.parallel s cs, by simp [mkParallel, Nat.not_lt.mpr h]⟩
  · intro s cs h
    exact ⟨by simp [mkSeries, h], by simp [mkParallel, h]⟩
  · intro z o
    exact merge_children_append z o
  · intro z o hz ho
    cases z <;> cases o <;>
      simp_all [merge, wellFormed, wellFormedList_append, wellFormedList] <;>
      omega

/-- C8 witness: a concrete one-child construction fails, a concrete
two-child construction succeeds, and a concrete merge of two well-formed
trees is well-formed. -/
theorem composite_two_children_invariant_witness :
    (mkSeries "" [Znode.leafR "1" none] = .error (.tooFewChildren 1) ∧
     mkParallel "" [Znode.leafR "1" none] = .error (.tooFewChildren 1)) ∧
    wellFormed (merge (Znode.series "" [Znode.leafR "1" none, Znode.leafR "2" none])
        (Znode.series "" [Znode.leafR "3" none, Znode.leafR "4" none])) = true :=
  ⟨composite_two_children_invariant.2.2.1 "" [Znode.leafR "1" none] (by decide),
   composite_two_children_invariant.2.2.2.2
     (Znode.series "" [Znode.leafR "1" none, Znode.leafR "2" none])
     (Znode.series "" [Znode.leafR "3" none, Znode.leafR "4" none])
     (by rfl) (by rfl)⟩

/-- When the overrides contain the element's label, the override wins,
whatever the bound value. -/
theorem lookupValue_override (name : String) (bound : Option ℝ) (ov : Ov) (w : ℝ)
    (h : ov.lookup name = some w) : lookupValue name bound ov = .ok w := by
  simp [lookupValue, h]

/-- Without a matching override, the bound value is used. -/
theorem lookupValue_bound (name : String) (bound : Option ℝ) (ov : Ov) (v : ℝ)
    (h : ov.lookup name = none) (hb : bound = some v) :
    lookupValue name bound ov = .ok v := by
  simp [lookupValue, h, hb]

/-- With neither an override nor a bound value, resolution fails naming
the element. -/
theorem lookupValue_missing (name : String) (bound : Option ℝ) (ov : Ov)
    (h : ov.lookup name = none) (hb : bound = none) :
    lookupValue name bound ov = .error (.valueNotFound name) := by
  simp [lookupValue, h, hb]

/-- Sequential child evaluation agrees with monadic `mapM` over `Except`. -/
theorem evalChildren_eq_mapM (cs : List Znode) (f : ℝ) (ov : Ov) :
    evalChildren cs f ov = cs.mapM (fun c => eval c f ov) := by
  induction cs with
  | nil => rfl
  | cons c cs ih =>
      rw [List.mapM_cons]
      cases h : eval c f ov with
      | error e => simp [evalChildren, h, Bind.bind, Except.bind]
      | ok v =>
          rw [evalChildren, h, ih]
          cases hs : cs.mapM (fun c => eval c f ov) with
          | error e => simp [hs, Bind.bind, Except.bind]
          | ok vs => simp [hs, Bind.bind, Except.bind, pure, Except.pure]

/-- C1: a Series composite evaluates to the sum of its children's
evaluations, and a Parallel composite to the reciprocal of the sum of the
reciprocals of its children's evaluations, at every frequency at which
all children evaluate successfully. -/
theorem series_parallel_evaluation (s t : String) (cs : List Znode) (f : ℝ)
    (ov : Ov) (vs : List ℂ)
    (h : cs.mapM (fun c => eval c f ov) = .ok vs) :
    eval (.series s cs) f ov = .ok vs.sum ∧
    eval (.parallel t cs) f ov = .ok (1 / (vs.map (fun v => 1 / v)).sum) := by
  have h2 : evalChildren cs f ov = .ok vs := by
    rw [evalChildren_eq_mapM]; exact h
  exact ⟨by rw [eval, h2], by rw [eval, h2]⟩

/-- C1 witness: a series pair of bound resistors sums, a parallel pair
combines by reciprocal sum, at frequency 5. -/
theorem series_parallel_evaluation_witness :
    eval (.series "" [Znode.leafR "1" (some 2), Znode.leafR "2" (some 3)]) 5 []
      = .ok (([(2 : ℂ), 3]).sum) ∧
    eval (.parallel "" [Znode.leafR "1" (some 2), Znode.leafR "2" (some 3)]) 5 []
      = .ok (1 / (([(2 : ℂ), 3]).map (fun v => 1 / v)).sum) :=
  series_parallel_evaluation "" "" [Znode.leafR "1" (some 2), Znode.leafR "2" (some 3)]
    5 [] [2, 3]
    (by
      rw [← evalChildren_eq_mapM]
      simp [evalChildren, eval, lookupValue, leafImpedance, labelOf, prefixOf,
        subscriptOf])

/-- C4: a leaf's evaluation resolves its value from the override keyed by
its own label when present (the bound value playing no part), else from
the bound value, and fails with the value-resolution `ValueError` naming
the leaf's label when neither exists. -/
theorem leaf_value_resolution (z : Znode) (f : ℝ) (ov : Ov)
    (hleaf : isLeaf z = true) :
    (∀ w, ov.lookup (labelOf z) = some w →
      eval z f ov = .ok (leafImpedance z f w)) ∧
    (∀ v, ov.lookup (labelOf z) = none → valueOf z = some v →
      eval z f ov = .ok (leafImpedance z f v)) ∧
    (ov.lookup (labelOf z) = none → valueOf z = none →
      eval z f ov = .error (.valueNotFound (labelOf z))) := by
  cases z with
  | leafR s v =>
      refine ⟨fun w hw => ?_, fun v2 hn hb => ?_, fun hn hb => ?_⟩
      · simp only [eval]; rw [lookupValue_override _ _ _ _ hw]
      · simp only [valueOf] at hb
        simp only [eval]; rw [lookupValue_bound _ _ _ _ hn hb]
      · simp only [valueOf] at hb
        simp only [eval]; rw [lookupValue_missing _ _ _ hn hb]
  | leafL s v =>
      refine ⟨fun w hw => ?_, fun v2 hn hb => ?_, fun hn hb => ?_⟩
      · simp only [eval]; rw [lookupValue_override _ _ _ _ hw]
      · simp only [valueOf] at hb
        simp only [eval]; rw [lookupValue_bound _ _ _ _ hn hb]
      · simp only [valueOf] at hb
        simp only [eval]; rw [lookupValue_missing _ _ _ hn hb]
  | leafC s v =>
      refine ⟨fun w hw => ?_, fun v2 hn hb => ?_, fun hn hb => ?_⟩
      · simp only [eval]; rw [lookupValue_override _ _ _ _ hw]
      · simp only [valueOf] at hb
        simp only [eval]; rw [lookupValue_bound _ _ _ _ hn hb]
      · simp only [valueOf] at hb
        simp only [eval]; rw [lookupValue_missing _ _ _ hn hb]
  | series s cs => simp [isLeaf] at hleaf
  | parallel s cs => simp [isLeaf] at hleaf

/-- C4 witness: an override keyed `Rx` beats the bound value 7, and a
capacitor with no bound value and no override fails naming `Cq`. -/
theorem leaf_value_resolution_witness :
    eval (Znode.leafR "x" (some 7)) 2 [("Rx", 9)]
      = .ok (leafImpedance (Znode.leafR "x" (some 7)) 2 9) ∧
    eval (Znode.leafC "q" none) 2 []
      = .error (.valueNotFound (labelOf (Znode.leafC "q" none))) :=
  ⟨(leaf_value_resolution (Znode.leafR "x" (some 7)) 2 [("Rx", 9)] (by rfl)).1
      9 (by rfl),
   (leaf_value_resolution (Znode.leafC "q" none) 2 [] (by rfl)).2.2
      (by rfl) (by rfl)⟩

/-- C5 counterexample: the override key `X` matches no label in the tree
(the lone node is labeled `R1`), yet evaluation succeeds instead of
failing with a parameter-mismatch error — unmatched override keys are
silently ignored. -/
theorem unmatched_override_counterexample :
    (preorder (Znode.leafR "1" (some 5))).all (fun n => labelOf n != "X") = true ∧
    eval (Znode.leafR "1" (some 5)) 1 [("X", 3)] = .ok ((5 : ℝ) : ℂ) := by
  refine ⟨by rfl, ?_⟩
  simp [eval, lookupValue, leafImpedance, labelOf, prefixOf, subscriptOf,
    List.lookup]

/-- C5 amended: an override key that matches no element label anywhere in
the tree is silently ignored — evaluation proceeds exactly as if the key
were absent, with no error raised for it. -/
theorem unmatched_override_ignored :
    ∀ (z : Znode) (f : ℝ) (k : String) (w : ℝ) (ov : Ov),
      (preorder z).all (fun n => labelOf n != k) = true →
      eval z f ((k, w) :: ov) = eval z f ov :=
  @Znode.rec
    (fun z => ∀ f k w ov,
      (preorder z).all (fun n => labelOf n != k) = true →
      eval z f ((k, w) :: ov) = eval z f ov)
    (fun cs => ∀ f k w ov,
      (preorderList cs).all (fun n => labelOf n != k) = true →
      evalChildren cs f ((k, w) :: ov) = evalChildren cs f ov)
    (by
      intro s v f k w ov h
      simp [preorder] at h
      simp [eval, lookupValue, List.lookup, beq_eq_false_iff_ne.mpr h])
    (by
      intro s v f k w ov h
      simp [preorder] at h
      simp [eval, lookupValue, List.lookup, beq_eq_false_iff_ne.mpr h])
    (by
      intro s v f k w ov h
      simp [preorder] at h
      simp [eval, lookupValue, List.lookup, beq_eq_false_iff_ne.mpr h])
    (by
      intro s cs ih f k w ov h
      simp only [preorder, List.all_cons, Bool.and_eq_true] at h
      simp [eval, ih f k w ov h.2])
    (by
      intro s cs ih f k w ov h
      simp only [preorder, List.all_cons, Bool.and_eq_true] at h
      simp [eval, ih f k w ov h.2])
    (by intro f k w ov h; rfl)
    (by
      intro c cs ihc ihcs f k w ov h
      simp only [preorderList, List.all_append, Bool.and_eq_true] at h
      simp [evalChildren, ihc f k w ov h.1, ihcs f k w ov h.2])

/-- C5 amended witness: at a concrete resistor, evaluation with the
unmatched key `X` equals evaluation without it. -/
theorem unmatched_override_ignored_witness :
    eval (Znode.leafR "1" (some 5)) 1 [("X", 3)] = eval (Znode.leafR "1" (some 5)) 1 [] :=
  unmatched_override_ignored (Znode.leafR "1" (some 5)) 1 "X" 3 [] (by rfl)

/-- Folding the series-combine operator from an existing Series composite
appends each further operand (its children when the operand is itself a
Series composite) to that composite's children. -/
theorem foldl_seriesCombine_series (rest : List Znode) :
    ∀ (s : String) (cs : List Znode),
      List.foldl seriesCombine (.series s cs) rest
        = .series s (cs ++ flattenOps isSeriesComp rest) := by
  induction rest with
  | nil => intro s cs; simp [flattenOps]
  | cons c rest ih =>
      intro s cs
      cases c <;>
        simp [seriesCombine, merge, flattenOps, isSeriesComp, childrenOf,
          List.foldl_cons, ih, List.append_assoc]

/-- Folding the parallel-combine operator from an existing Parallel
composite appends each further operand (its children when the operand is
itself a Parallel composite) to that composite's children. -/
theorem foldl_parallelCombine_parallel (rest : List Znode) :
    ∀ (s : String) (cs : List Znode),
      List.foldl parallelCombine (.parallel s cs) rest
        = .parallel s (cs ++ flattenOps isParallelComp rest) := by
  induction rest with
  | nil => intro s cs; simp [flattenOps]
  | cons c rest ih =>
      intro s cs
      cases c <;>
        simp [parallelCombine, merge, flattenOps, isParallelComp, childrenOf,
          List.foldl_cons, ih, List.append_assoc]

/-- C2 counterexample: combining the three nodes `R1`, `Zs = (Ra + Rb)`,
`R2` in series left to right yields children `[R1, Zs, R2]` — the series
composite second operand is kept nested, its children are not spliced —
so the children are not the flattened operand list the claim predicts. -/
theorem combine_flatten_counterexample :
    childrenOf (List.foldl seriesCombine (Znode.leafR "1" none)
        [Znode.series "s" [Znode.leafR "a" none, Znode.leafR "b" none],
         Znode.leafR "2" none])
      = [Znode.leafR "1" none,
         Znode.series "s" [Znode.leafR "a" none, Znode.leafR "b" none],
         Znode.leafR "2" none] ∧
    childrenOf (List.foldl seriesCombine (Znode.leafR "1" none)
        [Znode.series "s" [Znode.leafR "a" none, Znode.leafR "b" none],
         Znode.leafR "2" none])
      ≠ flattenOps isSeriesComp
          [Znode.leafR "1" none,
           Znode.series "s" [Znode.leafR "a" none, Znode.leafR "b" none],
           Znode.leafR "2" none] := by
  refine ⟨rfl, ?_⟩
  intro h
  have hlen := congrArg List.length h
  simp [flattenOps, isSeriesComp, childrenOf, seriesCombine, merge] at hlen

/-- C2 amended: when the left operand is already a composite of the
operator's kind, the operator appends the right operand (its children,
when it is a same-kind composite) to that composite's children and returns
that composite.  Consequently a left-to-right chain of same-kind
combinations whose second operand is not itself a same-kind composite
(or whose first operand already is one) produces a single one-level
composite whose children are all the operands, same-kind composite
operands contributing their children; but when the first operand is not a
same-kind composite and the second is, the second stays nested as a
single child. -/
theorem combine_flatten_amended :
    (∀ s cs b, seriesCombine (.series s cs) b
        = .series s (cs ++ (if isSeriesComp b then childrenOf b else [b]))) ∧
    (∀ s cs b, parallelCombine (.parallel s cs) b
        = .parallel s (cs ++ (if isParallelComp b then childrenOf b else [b]))) ∧
    (∀ a b rest, (isSeriesComp a = true ∨ isSeriesComp b = false) →
        isSeriesComp (List.foldl seriesCombine a (b :: rest)) = true ∧
        childrenOf (List.foldl seriesCombine a (b :: rest))
          = flattenOps isSeriesComp (a :: b :: rest)) ∧
    (∀ a b rest, (isParallelComp a = true ∨ isParallelComp b = false) →
        isParallelComp (List.foldl parallelCombine a (b :: rest)) = true ∧
        childrenOf (List.foldl parallelCombine a (b :: rest))
          = flattenOps isParallelComp (a :: b :: rest)) := by
  refine ⟨?_, ?_, ?_, ?_⟩
  · intro s cs b
    cases b <;> simp [seriesCombine, merge, isSeriesComp, childrenOf]
  · intro s cs b
    cases b <;> simp [parallelCombine, merge, isParallelComp, childrenOf]
  · intro a b rest h
    cases a with
    | series s cs =>
        rw [List.foldl_cons]
        cases b <;>
          simp [seriesCombine, merge, foldl_seriesCombine_series, flattenOps,
            isSeriesComp, childrenOf, List.append_assoc]
    | leafR s v =>
        rcases h with h | h
        · simp [isSeriesComp] at h
        · rw [List.foldl_cons]
          cases b <;> simp_all [seriesCombine, merge, isSeriesComp,
            foldl_seriesCombine_series, flattenOps, childrenOf]
    | leafL s v =>
        rcases h with h | h
        · simp [isSeriesComp] at h
        · rw [List.foldl_cons]
          cases b <;> simp_all [seriesCombine, merge, isSeriesComp,
            foldl_seriesCombine_series, flattenOps, childrenOf]
    | leafC s v =>
        rcases h with h | h
        · simp [isSeriesComp] at h
        · rw [List.foldl_cons]
          cases b <;> simp_all [seriesCombine, merge, isSeriesComp,
            foldl_seriesCombine_series, flattenOps, childrenOf]
    | parallel s cs =>
        rcases h with h | h
        · simp [isSeriesComp] at h
        · rw [List.foldl_cons]
          cases b <;> simp_all [seriesCombine, merge, isSeriesComp,
            foldl_seriesCombine_series, flattenOps, childrenOf]
  · intro a b rest h
    cases a with
    | parallel s cs =>
        rw [List.foldl_cons]
        cases b <;>
          simp [parallelCombine, merge, foldl_parallelCombine_parallel, flattenOps,
            isParallelComp, childrenOf, List.append_assoc]
    | leafR s v =>
        rcases h with h | h
        · simp [isParallelComp] at h
        · rw [List.foldl_cons]
          cases b <;> simp_all [parallelCombine, merge, isParallelComp,
            foldl_parallelCombine_parallel, flattenOps, childrenOf]
    | leafL s v =>
        rcases h with h | h
        · simp [isParallelComp] at h
        · rw [List.foldl_cons]
          cases b <;> simp_all [parallelCombine, merge, isParallelComp,
            foldl_parallelCombine_parallel, flattenOps, childrenOf]
    | leafC s v =>
        rcases h with h | h
        · simp [isParallelComp] at h
        · rw [List.foldl_cons]
          cases b <;> simp_all [parallelCombine, merge, isParallelComp,
            foldl_parallelCombine_parallel, flattenOps, childrenOf]
    | series s cs =>
        rcases h with h | h
        · simp [isParallelComp] at h
        · rw [List.foldl_cons]
          cases b <;> simp_all [parallelCombine, merge, isParallelComp,
            foldl_parallelCombine_parallel, flattenOps, childrenOf]

/-- C2 amended witness: three leaf resistors combined in series left to
right give one Series node with the three leaves as children. -/
theorem combine_flatten_amended_witness :
    isSeriesComp (List.foldl seriesCombine (Znode.leafR "1" none)
        [Znode.leafR "2" none, Znode.leafR "3" none]) = true ∧
    childrenOf (List.foldl seriesCombine (Znode.leafR "1" none)
        [Znode.leafR "2" none, Znode.leafR "3" none])
      = flattenOps isSeriesComp
          [Znode.leafR "1" none, Znode.leafR "2" none, Znode.leafR "3" none] :=
  combine_flatten_amended.2.2.1 (Znode.leafR "1" none) (Znode.leafR "2" none)
    [Znode.leafR "3" none] (Or.inr (by rfl))

/-- The resolution step of `breakfreq` for two labels that both resolve. -/
theorem resolveAll_pair (z : Znode) (la lb : String) (a b : Znode)
    (ha : subz z la = some a) (hb : subz z lb = some b) :
    resolveAll z [la, lb] = .ok [a, b] := by
  simp [resolveAll, ha, hb]

/-- When resolution succeeds, `breakfreq` is the validation-and-formula
body applied to the resolved elements. -/
theorem breakfreq_eq_bfCore (z : Znode) (labels : String) (es : List Znode)
    (h : resolveAll z (splitLabels labels) = .ok es) :
    breakfreq z labels = bfCore es := by
  simp [breakfreq, h]

/-- When resolution fails, `breakfreq` propagates the `KeyError`. -/
theorem breakfreq_eq_of_resolve_error (z : Znode) (labels : String) (e : BfErr)
    (h : resolveAll z (splitLabels labels) = .error e) :
    breakfreq z labels = .error e := by
  simp [breakfreq, h]

/-- If any requested label fails to resolve, resolution fails with the
`KeyError` of the first failing label. -/
theorem resolveAll_fail (z : Znode) (labs : List String)
    (h : ∃ la ∈ labs, subz z la = none) :
    ∃ lb ∈ labs, subz z lb = none ∧ resolveAll z labs = .error (.notFound lb) := by
  induction labs with
  | nil => simp at h
  | cons l ls ih =>
      cases hl : subz z l with
      | none => exact ⟨l, by simp, hl, by simp [resolveAll, hl]⟩
      | some n =>
          obtain ⟨la, hmem, hla⟩ := h
          have hmem2 : la ∈ ls := by
            rcases List.mem_cons.mp hmem with rfl | h2
            · rw [hl] at hla; cases hla
            · exact h2
          obtain ⟨lb, hm, hnone, hres⟩ := ih ⟨la, hmem2, hla⟩
          exact ⟨lb, List.mem_cons_of_mem l hm, hnone, by simp [resolveAll, hl, hres]⟩

/-- Validation body on a resolved resistor-then-capacitor pair. -/
theorem bfCore_RC (sa sb : String) (va vb : Option ℝ) :
    bfCore [.leafR sa va, .leafC sb vb]
      = match va with
        | none => .error .noneValue
        | some rv =>
            match vb with
            | none => .error .noneValue
            | some cv => .ok (1 / 2 / Real.pi / rv / cv) := by
  cases va <;> cases vb <;>
    simp [bfCore, valueByKind, kindName, valueOf, List.dedup_cons_of_not_mem]

/-- Validation body on a resolved capacitor-then-resistor pair: the
resistor value is still read first. -/
theorem bfCore_CR (sa sb : String) (va vb : Option ℝ) :
    bfCore [.leafC sa va, .leafR sb vb]
      = match vb with
        | none => .error .noneValue
        | some rv =>
            match va with
            | none => .error .noneValue
            | some cv => .ok (1 / 2 / Real.pi / rv / cv) := by
  cases va <;> cases vb <;>
    simp [bfCore, valueByKind, kindName, valueOf, List.dedup_cons_of_not_mem]

/-- Validation body on a resolved resistor-then-inductor pair. -/
theorem bfCore_RL (sa sb : String) (va vb : Option ℝ) :
    bfCore [.leafR sa va, .leafL sb vb]
      = match va with
        | none => .error .noneValue
        | some rv =>
            match vb with
            | none => .error .noneValue
            | some lv => .ok (rv / 2 / Real.pi / lv) := by
  cases va <;> cases vb <;>
    simp [bfCore, valueByKind, kindName, valueOf, List.dedup_cons_of_not_mem]

/-- Validation body on a resolved inductor-then-resistor pair: the
resistor value is still read first. -/
theorem bfCore_LR (sa sb : String) (va vb : Option ℝ) :
    bfCore [.leafL sa va, .leafR sb vb]
      = match vb with
        | none => .error .noneValue
        | some rv =>
            match va with
            | none => .error .noneValue
            | some lv => .ok (rv / 2 / Real.pi / lv) := by
  cases va <;> cases vb <;>
    simp [bfCore, valueByKind, kindName, valueOf, List.dedup_cons_of_not_mem]

/-- Validation body on a resolved inductor-then-capacitor pair. -/
theorem bfCore_LC (sa sb : String) (va vb : Option ℝ) :
    bfCore [.leafL sa va, .leafC sb vb]
      = match va with
        | none => .error .noneValue
        | some lv =>
            match vb with
            | none => .error .noneValue
            | some cv => .ok (1 / 2 / Real.pi / Real.sqrt (lv * cv)) := by
  cases va <;> cases vb <;>
    simp [bfCore, valueByKind, kindName, valueOf, List.dedup_cons_of_not_mem]

/-- Validation body on a resolved capacitor-then-inductor pair: the
inductor value is still read first. -/
theorem bfCore_CL (sa sb : String) (va vb : Option ℝ) :
    bfCore [.leafC sa va, .leafL sb vb]
      = match vb with
        | none => .error .noneValue
        | some lv =>
            match va with
            | none => .error .noneValue
            | some cv => .ok (1 / 2 / Real.pi / Real.sqrt (lv * cv)) := by
  cases va <;> cases vb <;>
    simp [bfCore, valueByKind, kindName, valueOf, List.dedup_cons_of_not_mem]

/-- C6: when the two labels given to `breakfreq` resolve to two leaves of
distinct kinds with bound values, the result is the break-frequency value
of the spec table for that pair of kinds: `1/(2pi R C)`, `R/(2pi L)`, or
`1/(2pi sqrt(L C))`. -/
theorem breakfreq_formula_table (z : Znode) (labels la lb : String)
    (a b : Znode) (r : ℝ)
    (hsplit : splitLabels labels = [la, lb])
    (ha : subz z la = some a) (hb : subz z lb = some b)
    (hf : specBreakFormula a b = some r) :
    breakfreq z labels = .ok r := by
  have hres : resolveAll z (splitLabels labels) = .ok [a, b] := by
    rw [hsplit]; exact resolveAll_pair z la lb a b ha hb
  rw [breakfreq_eq_bfCore z labels [a, b] hres]
  cases a with
  | leafR sa va =>
      cases va with
      | none => cases b <;> simp [specBreakFormula] at hf
      | some rv =>
          cases b with
          | leafR sb vb => simp [specBreakFormula] at hf
          | series sb cb => simp [specBreakFormula] at hf
          | parallel sb cb => simp [specBreakFormula] at hf
          | leafC sb vb =>
              cases vb with
              | none => simp [specBreakFormula] at hf
              | some cv =>
                  simp only [specBreakFormula, Option.some.injEq] at hf
                  rw [bfCore_RC, ← hf]
                  ring_nf
          | leafL sb vb =>
              cases vb with
              | none => simp [specBreakFormula] at hf
              | some lv =>
                  simp only [specBreakFormula, Option.some.injEq] at hf
                  rw [bfCore_RL, ← hf]
                  ring_nf
  | leafL sa va =>
      cases va with
      | none => cases b <;> simp [specBreakFormula] at hf
      | some lv =>
          cases b with
          | leafL sb vb => simp [specBreakFormula] at hf
          | series sb cb => simp [specBreakFormula] at hf
          | parallel sb cb => simp [specBreakFormula] at hf
          | leafR sb vb =>
              cases vb with
              | none => simp [specBreakFormula] at hf
              | some rv =>
                  simp only [specBreakFormula, Option.some.injEq] at hf
                  rw [bfCore_LR, ← hf]
                  ring_nf
          | leafC sb vb =>
              cases vb with
              | none => simp [specBreakFormula] at hf
              | some cv =>
                  simp only [specBreakFormula, Option.some.injEq] at hf
                  rw [bfCore_LC, ← hf]
                  ring_nf
  | leafC sa va =>
      cases va with
      | none => cases b <;> simp [specBreakFormula] at hf
      | some cv =>
          cases b with
          | leafC sb vb => simp [specBreakFormula] at hf
          | series sb cb => simp [specBreakFormula] at hf
          | parallel sb cb => simp [specBreakFormula] at hf
          | leafR sb vb =>
              cases vb with
              | none => simp [specBreakFormula] at hf
              | some rv =>
                  simp only [specBreakFormula, Option.some.injEq] at hf
                  rw [bfCore_CR, ← hf]
                  ring_nf
          | leafL sb vb =>
              cases vb with
              | none => simp [specBreakFormula] at hf
              | some lv =>
                  simp only [specBreakFormula, Option.some.injEq] at hf
                  rw [bfCore_CL, ← hf]
                  ring_nf
  | series sa ca => cases b <;> simp [specBreakFormula] at hf
  | parallel sa ca => cases b <;> simp [specBreakFormula] at hf

/-- C6 witness: for a bound 10-ohm resistor and 1-microfarad capacitor in
series, `breakfreq "R C"` is `1/(2pi*10*(1/1000000))`. -/
theorem breakfreq_formula_table_witness :
    breakfreq (Znode.series "" [Znode.leafR "" (some 10),
        Znode.leafC "" (some (1 / 1000000))]) "R C"
      = .ok (1 / (2 * Real.pi * 10 * (1 / 1000000))) :=
  breakfreq_formula_table
    (Znode.series "" [Znode.leafR "" (some 10), Znode.leafC "" (some (1 / 1000000))])
    "R C" "R" "C"
    (Znode.leafR "" (some 10)) (Znode.leafC "" (some (1 / 1000000)))
    (1 / (2 * Real.pi * 10 * (1 / 1000000)))
    (by rfl) (by rfl) (by rfl) (by rfl)

/-- C7: the `breakfreq` validation fails with the domain `ValueError`s in
their order in the code — a resolved-label count other than two (or a
duplicated kind) hits the count/uniqueness check first, two distinct
kinds with one outside {R, L, C} hit the kind check second — while a
label that resolves to no node propagates the distinct `KeyError` raised
during resolution, before any domain check. -/
theorem breakfreq_error_order :
    (∀ z labels es, resolveAll z (splitLabels labels) = .ok es →
      es.length ≠ 2 →
      breakfreq z labels
        = .error (.expectTwo ((es.map kindName).dedup.length) es.length)) ∧
    (∀ z labels a b, resolveAll z (splitLabels labels) = .ok [a, b] →
      kindName a = kindName b →
      breakfreq z labels = .error (.expectTwo 1 2)) ∧
    (∀ z labels a b, resolveAll z (splitLabels labels) = .ok [a, b] →
      kindName a ≠ kindName b →
      ¬(kindName a ∈ (["R", "L", "C"] : List String) ∧
        kindName b ∈ (["R", "L", "C"] : List String)) →
      breakfreq z labels = .error (.badKinds [kindName a, kindName b])) ∧
    (∀ z labels, (∃ la ∈ splitLabels labels, subz z la = none) →
      ∃ lb ∈ splitLabels labels, subz z lb = none ∧
        breakfreq z labels = .error (.notFound lb)) ∧
    (∀ la m n ks, BfErr.notFound la ≠ BfErr.expectTwo m n ∧
      BfErr.notFound la ≠ BfErr.badKinds ks) := by
  refine ⟨?_, ?_, ?_, ?_, ?_⟩
  · intro z labels es hres hlen
    rw [breakfreq_eq_bfCore z labels es hres]
    simp only [bfCore]
    rw [if_pos (Or.inl hlen)]
  · intro z labels a b hres hk
    rw [breakfreq_eq_bfCore z labels [a, b] hres]
    have hd : (([a, b] : List Znode).map kindName).dedup = [kindName b] := by
      simp [hk, List.dedup_cons_of_mem]
    simp only [bfCore, hd]
    rw [if_pos]
    · simp
    · right; simp
  · intro z labels a b hres hk hout
    rw [breakfreq_eq_bfCore z labels [a, b] hres]
    have hd : (([a, b] : List Znode).map kindName).dedup
        = [kindName a, kindName b] := by
      simp [List.dedup_cons_of_not_mem, hk]
    simp only [bfCore, hd]
    rw [if_neg (by simp)]
    rw [if_pos]
    simp only [List.mem_cons, List.mem_singleton, List.not_mem_nil,
      or_false] at hout
    intro hall
    exact hout ⟨by simpa using hall (kindName a) (by simp),
      by simpa using hall (kindName b) (by simp)⟩
  · intro z labels hex
    obtain ⟨lb, hm, hnone, hres⟩ := resolveAll_fail z (splitLabels labels) hex
    exact ⟨lb, hm, hnone, breakfreq_eq_of_resolve_error z labels _ hres⟩
  · intro la m n ks
    exact ⟨(fun h => nomatch h), (fun h => nomatch h)⟩

/-- C7 witness: two same-kind resistors give the count/uniqueness domain
error, a single label gives it too, a composite operand gives the kind
domain error, and a missing label gives the distinct not-found error. -/
theorem breakfreq_error_order_witness :
    breakfreq (Znode.series "" [Znode.leafR "1" (some 1), Znode.leafR "2" (some 2)])
        "R1 R2" = .error (.expectTwo 1 2) ∧
    breakfreq (Znode.series "" [Znode.leafR "1" (some 1), Znode.leafR "2" (some 2)])
        "R1" = .error (.expectTwo 1 1) ∧
    breakfreq (Znode.series "" [Znode.series "x" [Znode.leafR "a" none,
          Znode.leafR "b" none], Znode.leafR "9" none])
        "Zx R9" = .error (.badKinds ["SeriesZ", "R"]) ∧
    breakfreq (Znode.series "" [Znode.leafR "1" (some 1), Znode.leafR "2" (some 2)])
        "Rq" = .error (.notFound "Rq") := by
  refine ⟨?_, ?_, ?_, ?_⟩
  · exact breakfreq_error_order.2.1
      (Znode.series "" [Znode.leafR "1" (some 1), Znode.leafR "2" (some 2)])
      "R1 R2" (Znode.leafR "1" (some 1)) (Znode.leafR "2" (some 2))
      (by rfl) (by rfl)
  · have h := breakfreq_error_order.1
      (Znode.series "" [Znode.leafR "1" (some 1), Znode.leafR "2" (some 2)])
      "R1" [Znode.leafR "1" (some 1)] (by rfl) (by simp)
    simpa using h
  · exact breakfreq_error_order.2.2.1
      (Znode.series "" [Znode.series "x" [Znode.leafR "a" none,
          Znode.leafR "b" none], Znode.leafR "9" none])
      "Zx R9"
      (Znode.series "x" [Znode.leafR "a" none, Znode.leafR "b" none])
      (Znode.leafR "9" none)
      (by rfl) (by simp [kindName]) (by simp [kindName])
  · obtain ⟨lb, hm, hnone, heq⟩ := breakfreq_error_order.2.2.2.1
      (Znode.series "" [Znode.leafR "1" (some 1), Znode.leafR "2" (some 2)])
      "Rq" ⟨"Rq", by simp [splitLabels, wsSplitAux], by rfl⟩
    have : lb = "Rq" := by
      have := hm
      simp [splitLabels, wsSplitAux] at this
      exact this
    rw [this] at heq
    exact heq

/-- C10: `breakfreq` accepts no parameter overrides — its only inputs are
the node and the label string, and it reads the elements' bound values —
so when the two labels resolve to leaves of distinct kinds (passing every
validation) but either element has no bound value, it fails with the
arithmetic-on-`None` `TypeError`, an error distinct from the not-found and
domain errors of the spec's taxonomy. -/
theorem breakfreq_unbound_value (z : Znode) (labels la lb : String)
    (a b : Znode)
    (hsplit : splitLabels labels = [la, lb])
    (ha : subz z la = some a) (hb : subz z lb = some b)
    (hla : isLeaf a = true) (hlb : isLeaf b = true)
    (hk : kindName a ≠ kindName b)
    (hv : valueOf a = none ∨ valueOf b = none) :
    breakfreq z labels = .error .noneValue ∧
    (∀ l, BfErr.noneValue ≠ BfErr.notFound l) ∧
    (∀ m n, BfErr.noneValue ≠ BfErr.expectTwo m n) ∧
    (∀ ks, BfErr.noneValue ≠ BfErr.badKinds ks) := by
  refine ⟨?_, fun l => (fun h => nomatch h), fun m n => (fun h => nomatch h),
    fun ks => (fun h => nomatch h)⟩
  have hres : resolveAll z (splitLabels labels) = .ok [a, b] := by
    rw [hsplit]; exact resolveAll_pair z la lb a b ha hb
  rw [breakfreq_eq_bfCore z labels [a, b] hres]
  cases a with
  | series sa ca => simp [isLeaf] at hla
  | parallel sa ca => simp [isLeaf] at hla
  | leafR sa va =>
      cases b with
      | series sb cb => simp [isLeaf] at hlb
      | parallel sb cb => simp [isLeaf] at hlb
      | leafR sb vb => simp [kindName] at hk
      | leafC sb vb =>
          rw [bfCore_RC]
          simp only [valueOf] at hv
          rcases hv with rfl | rfl
          · rfl
          · cases va <;> rfl
      | leafL sb vb =>
          rw [bfCore_RL]
          simp only [valueOf] at hv
          rcases hv with rfl | rfl
          · rfl
          · cases va <;> rfl
  | leafL sa va =>
      cases b with
      | series sb cb => simp [isLeaf] at hlb
      | parallel sb cb => simp [isLeaf] at hlb
      | leafL sb vb => simp [kindName] at hk
      | leafR sb vb =>
          rw [bfCore_LR]
          simp only [valueOf] at hv
          rcases hv with rfl | rfl
          · cases vb <;> rfl
          · rfl
      | leafC sb vb =>
          rw [bfCore_LC]
          simp only [valueOf] at hv
          rcases hv with rfl | rfl
          · rfl
          · cases va <;> rfl
  | leafC sa va =>
      cases b with
      | series sb cb => simp [isLeaf] at hlb
      | parallel sb cb => simp [isLeaf] at hlb
      | leafC sb vb => simp [kindName] at hk
      | leafR sb vb =>
          rw [bfCore_CR]
          simp only [valueOf] at hv
          rcases hv with rfl | rfl
          · cases vb <;> rfl
          · rfl
      | leafL sb vb =>
          rw [bfCore_CL]
          simp only [valueOf] at hv
          rcases hv with rfl | rfl
          · cases vb <;> rfl
          · rfl

/-- C10 witness: an unbound resistor next to a bound capacitor passes
validation and fails with the `TypeError`-style error, not a taxonomy
error. -/
theorem breakfreq_unbound_value_witness :
    breakfreq (Znode.series "" [Znode.leafR "" none, Znode.leafC "" (some 1)])
        "R C" = .error .noneValue ∧
    BfErr.noneValue ≠ BfErr.notFound "R" :=
  ⟨(breakfreq_unbound_value
      (Znode.series "" [Znode.leafR "" none, Znode.leafC "" (some 1)])
      "R C" "R" "C" (Znode.leafR "" none) (Znode.leafC "" (some 1))
      (by rfl) (by rfl) (by rfl) (by rfl) (by rfl)
      (by simp [kindName]) (Or.inl (by rfl))).1,
   (breakfreq_unbound_value
      (Znode.series "" [Znode.leafR "" none, Znode.leafC "" (some 1)])
      "R C" "R" "C" (Znode.leafR "" none) (Znode.leafC "" (some 1))
      (by rfl) (by rfl) (by rfl) (by rfl) (by rfl)
      (by simp [kindName]) (Or.inl (by rfl))).2.1 "R"⟩

end FastZ
